import Mathlib

/-!
Shallow embedding of the story-parsing and document-assembly core of
`prd_generator.py` (classes `UserStoryParser` and `PRDGenerator`).

Strings are modelled as `List Char`.  Python string methods
(`strip`, `split`, `capitalize`, `lower`, f-string interpolation) and the
regular-expression searches from `UserStoryParser.story_patterns` are
modelled for ASCII text (every pattern literal in the source is ASCII).
`re.search` is modelled as a leftmost scan with the exact backtracking
order of the Python engine (greedy/lazy quantifiers, alternation order),
specialised to the five concrete patterns of the source.
-/

namespace PRD

abbrev Str := List Char

/-- ASCII whitespace as stripped by Python `str.strip()` and matched by the
regex class `\s`. -/
def pyWS (c : Char) : Bool :=
  c = ' ' || c = '\t' || c = '\n' || c = '\r' || c = '\x0b' || c = '\x0c'

/-- Python regex `\w` (ASCII part): letters, digits, underscore. -/
def wordChar (c : Char) : Bool := c.isAlpha || c.isDigit || c = '_'

def lstrip (s : Str) : Str := s.dropWhile pyWS

def rstrip (s : Str) : Str := (s.reverse.dropWhile pyWS).reverse

/-- Python `str.strip()` (leading and trailing whitespace removed). -/
def pyStrip (s : Str) : Str := rstrip (lstrip s)

/-- Python `str.lower()`. -/
def pyLower (s : Str) : Str := s.map Char.toLower

/-- Python `str.capitalize()`: first character uppercased, all remaining
characters lowercased. -/
def pyCapitalize : Str → Str
  | [] => []
  | c :: rest => c.toUpper :: rest.map Char.toLower

/-- Python `str.split('\n')`: always returns at least one piece. -/
def splitNl : Str → List Str
  | [] => [[]]
  | c :: t =>
    if c = '\n' then [] :: splitNl t
    else
      match splitNl t with
      | [] => [[c]]
      | h :: tl => (c :: h) :: tl

/-- Python `'\n'.join(...)`. -/
def nlJoin : List Str → Str
  | [] => []
  | [l] => l
  | l :: ls => l ++ '\n' :: nlJoin ls

/-- Case-insensitive match of a literal pattern (given lowercased) at the
start of the text, returning the rest of the text after the pattern.
Models matching a regex literal under `re.IGNORECASE` (ASCII). -/
def matchCI : Str → Str → Option Str
  | [], s => some s
  | _ :: _, [] => none
  | p :: ps, c :: cs => if c.toLower = p then matchCI ps cs else none

/-! ### The gherkin pattern

`story_patterns['gherkin'] = r'As a (.+?), I want (.+?) so that (.+?)(?:\.|$)'`
searched with `re.IGNORECASE` (no DOTALL: `.` excludes newline; no
MULTILINE: `$` matches at the end of the text or before a single final
newline). -/

/-- The terminator `(?:\.|$)`: tried after each lazy extension of the
benefit capture.  Succeeds when the remaining text starts with a period
(first alternative) or `$` matches (remaining text empty or a single
final newline). -/
def gherkinEnd : Str → Bool
  | [] => true
  | ['\n'] => true
  | c :: _ => c = '.'

/-- Lazy capture `(.+?)` followed by `(?:\.|$)`: the shortest nonempty
newline-free prefix whose remainder passes `gherkinEnd`.  `acc` holds the
characters captured so far. -/
def lazyBenefit (acc : Str) : Str → Option Str
  | [] => none
  | c :: rest =>
    if c = '\n' then none
    else if gherkinEnd rest then some (acc ++ [c])
    else lazyBenefit (acc ++ [c]) rest

/-- Lazy capture of the action group followed by the literal `' so that '`
and the benefit group; on inner failure the action is extended one
character (Python backtracking order). -/
def tryAction (acc : Str) : Str → Option (Str × Str)
  | [] => none
  | c :: rest =>
    if c = '\n' then none
    else
      match matchCI (" so that ").toList rest with
      | some r2 =>
        match lazyBenefit [] r2 with
        | some benefit => some (acc ++ [c], benefit)
        | none => tryAction (acc ++ [c]) rest
      | none => tryAction (acc ++ [c]) rest

/-- Lazy capture of the persona group followed by the literal `', I want '`
and the rest of the pattern; on inner failure the persona is extended. -/
def tryPersona (acc : Str) : Str → Option (Str × Str × Str)
  | [] => none
  | c :: rest =>
    if c = '\n' then none
    else
      match matchCI (", i want ").toList rest with
      | some r2 =>
        match tryAction [] r2 with
        | some ab => some (acc ++ [c], ab.1, ab.2)
        | none => tryPersona (acc ++ [c]) rest
      | none => tryPersona (acc ++ [c]) rest

/-- `re.search` of the gherkin pattern: leftmost position where the whole
pattern matches; returns the `(persona, action, benefit)` captures. -/
def gherkinSearch : Str → Option (Str × Str × Str)
  | [] => none
  | c :: rest =>
    match matchCI ("as a ").toList (c :: rest) with
    | some r =>
      match tryPersona [] r with
      | some g => some g
      | none => gherkinSearch rest
    | none => gherkinSearch rest

/-! ### The criteria pattern

`story_patterns['criteria'] = r'(?:Acceptance Criteria?:|AC:)\s*\n?((?:.+\n?)*)'`
searched with `re.IGNORECASE | re.DOTALL`.  Under DOTALL the group
`((?:.+\n?)*)` greedily captures everything to the end of the text, and
`\s*` greedily eats the whitespace after the label (`\n?` then matches
empty, since no whitespace can follow a maximal whitespace run). -/

/-- The label alternatives, in regex order (`Criteria?` = greedy optional
final `a`). -/
def criteriaLabel (s : Str) : Option Str :=
  (matchCI ("acceptance criteria:").toList s).orElse fun _ =>
  (matchCI ("acceptance criteri:").toList s).orElse fun _ =>
  matchCI ("ac:").toList s

/-- `re.search` of the criteria pattern: group 1 at the leftmost label
occurrence. -/
def criteriaSearch : Str → Option Str
  | [] => none
  | c :: rest =>
    match criteriaLabel (c :: rest) with
    | some r => some (r.dropWhile pyWS)
    | none => criteriaSearch rest

/-! ### The priority pattern

`story_patterns['priority'] = r'(?:Priority:|Prio:)\s*(\w+)'`, searched
with `re.IGNORECASE`.  `\s` and `\w` are disjoint, so backtracking the
greedy `\s*` can never rescue a failed `\w+`. -/

def prioLabel (s : Str) : Option Str :=
  (matchCI ("priority:").toList s).orElse fun _ => matchCI ("prio:").toList s

/-- Match of the whole priority pattern at one position: the captured word
is the maximal `\w+` run after the whitespace following the label. -/
def prioMatchAt (s : Str) : Option Str :=
  match prioLabel s with
  | some r =>
    let w := (r.dropWhile pyWS).takeWhile wordChar
    if w.isEmpty then none else some w
  | none => none

/-- `re.search` of the priority pattern: capture at the leftmost matching
position. -/
def prioSearch : Str → Option Str
  | [] => none
  | c :: rest =>
    match prioMatchAt (c :: rest) with
    | some w => some w
    | none => prioSearch rest

/-! ### The points pattern

`story_patterns['points'] = r'(?:Story Points?:|Points?:|SP:)\s*(\d+)'`,
searched with `re.IGNORECASE`. -/

def pointsLabel (s : Str) : Option Str :=
  (matchCI ("story points:").toList s).orElse fun _ =>
  (matchCI ("story point:").toList s).orElse fun _ =>
  (matchCI ("points:").toList s).orElse fun _ =>
  (matchCI ("point:").toList s).orElse fun _ =>
  matchCI ("sp:").toList s

def pointsMatchAt (s : Str) : Option Str :=
  match pointsLabel s with
  | some r =>
    let d := (r.dropWhile pyWS).takeWhile Char.isDigit
    if d.isEmpty then none else some d
  | none => none

def pointsSearch : Str → Option Str
  | [] => none
  | c :: rest =>
    match pointsMatchAt (c :: rest) with
    | some d => some d
    | none => pointsSearch rest

/-- Python `int` on the nonempty digit capture. -/
def digitsToNat (s : Str) : Nat :=
  s.foldl (fun a c => a * 10 + (c.toNat - ('0').toNat)) 0

/-! ### The acceptance pattern

`story_patterns['acceptance'] = r'(?:Given|When|Then|And)\s+(.+?)(?:\n|$)'`,
used with `re.findall` and `re.IGNORECASE` (no MULTILINE, no word
boundaries: the keywords match anywhere, including inside words). -/

/-- Lazy capture `(.+?)(?:\n|$)`: the rest of the current line; fails at a
newline or at the end of the text.  Returns the capture and the text
after the consumed terminator. -/
def lineCapture : Str → Option (Str × Str)
  | [] => none
  | c :: rest =>
    if c = '\n' then none
    else
      some (c :: rest.takeWhile (fun d => !(d = '\n')),
            (rest.dropWhile (fun d => !(d = '\n'))).drop 1)

/-- `\s+(.+?)(?:\n|$)` after a keyword: greedy whitespace run (which may
cross newlines), backtracking to shorter runs until the lazy line
capture succeeds — the exact Python order. -/
def accTail : Str → Option (Str × Str)
  | [] => none
  | c :: rest =>
    if pyWS c then
      match accTail rest with
      | some r => some r
      | none => lineCapture rest
    else none

/-- The keyword alternatives, in regex order (pairwise distinct first
letters, so the alternation never backtracks across alternatives). -/
def accKeyword (s : Str) : Option Str :=
  (matchCI ("given").toList s).orElse fun _ =>
  (matchCI ("when").toList s).orElse fun _ =>
  (matchCI ("then").toList s).orElse fun _ =>
  matchCI ("and").toList s

def accMatchAt (s : Str) : Option (Str × Str) :=
  match accKeyword s with
  | some r => accTail r
  | none => none

/-- `re.findall` of the acceptance pattern: repeated left-to-right scan for
non-overlapping matches.  Fuel-driven: every step consumes at least one
character of the scanned text, so `length + 1` steps always suffice. -/
def accFindAllFuel : Nat → Str → List Str
  | 0, _ => []
  | _ + 1, [] => []
  | fuel + 1, c :: rest =>
    match accMatchAt (c :: rest) with
    | some capAfter => capAfter.1 :: accFindAllFuel fuel capAfter.2
    | none => accFindAllFuel fuel rest

def accFindAll (s : Str) : List Str := accFindAllFuel (s.length + 1) s

/-! ### `UserStoryParser` -/

structure UserStory where
  title : Str
  description : Str
  acceptance_criteria : List Str
  priority : Str
  story_points : Option Nat
deriving DecidableEq

/-- First element of `text.split('\n')` (the list is never empty). -/
def firstLine (text : Str) : Str := (splitNl text).headD []

/-- The `title`/`description` assignments of
`UserStoryParser._parse_single_story`: the gherkin branch builds both
from the captures; otherwise the title is the first line of the block
(truncated to 100 characters plus `"..."` when longer) and the
description is the whole block. -/
def storyTitleDesc (text : Str) : Str × Str :=
  match gherkinSearch text with
  | some g =>
    (("User Story: ").toList ++ g.2.1,
     ("As a ").toList ++ g.1 ++ (", I want ").toList ++ g.2.1 ++
       (" so that ").toList ++ g.2.2)
  | none =>
    let l0 := firstLine text
    (if 100 < l0.length then l0.take 100 ++ ("...").toList else l0, text)

/-- The `acceptance_criteria` assignments of `_parse_single_story`: the
labeled-block criteria (split on newlines, stripped, blanks removed)
followed by the inline findall captures. -/
def storyCriteria (text : Str) : List Str :=
  (match criteriaSearch text with
   | some ctext => ((splitNl ctext).map pyStrip).filter (fun l => !l.isEmpty)
   | none => []) ++ accFindAll text

/-- The `priority` assignment of `_parse_single_story`. -/
def storyPriority (text : Str) : Str :=
  match prioSearch text with
  | some w => pyCapitalize w
  | none => ("Medium").toList

/-- The `story_points` assignment of `_parse_single_story`. -/
def storyPointsOf (text : Str) : Option Nat := (pointsSearch text).map digitsToNat

/-- `UserStoryParser._parse_single_story`: a record is returned only when
both title and description are nonempty (Python truthiness of strings). -/
def parseSingleStory (text : Str) : Option UserStory :=
  if (storyTitleDesc text).1.isEmpty || (storyTitleDesc text).2.isEmpty then none
  else some ⟨(storyTitleDesc text).1, (storyTitleDesc text).2,
             storyCriteria text, storyPriority text, storyPointsOf text⟩

/-- The accumulation loop of `UserStoryParser._split_into_stories`:
`stories` is the output accumulator, `cur` the (already stripped) lines of
the block being built. -/
def splitLoop (stories : List Str) (cur : List Str) : List Str → List Str
  | [] => if cur.isEmpty then stories else stories ++ [nlJoin cur]
  | l :: ls =>
    let s := pyStrip l
    if s.isEmpty then
      if cur.isEmpty then splitLoop stories cur ls
      else splitLoop (stories ++ [nlJoin cur]) [] ls
    else splitLoop stories (cur ++ [s]) ls

/-- `UserStoryParser._split_into_stories`. -/
def splitIntoStories (text : Str) : List Str :=
  splitLoop [] [] (splitNl (pyStrip text))

/-- `UserStoryParser.parse_user_stories`: the appending loop over the
blocks. -/
def parse_user_stories (text : Str) : List UserStory :=
  (splitIntoStories text).foldl
    (fun acc b =>
      match parseSingleStory b with
      | some s => acc ++ [s]
      | none => acc) []

/-! ### `PRDGenerator` -/

structure PRDSection where
  title : Str
  content : Str
deriving DecidableEq

/-- The recognized optional keys of the `project_info` mapping; a missing
key (`none`) takes the fixed default of the corresponding `.get` call. -/
structure ProjectInfo where
  title : Option Str := none
  author : Option Str := none
  date : Option Str := none
  version : Option Str := none
  status : Option Str := none
  target_release : Option Str := none
  vision : Option Str := none
deriving DecidableEq

/-- The empty `project_info` mapping. -/
def ProjectInfo.empty : ProjectInfo := {}

/-- Python `str(n)` for a natural number. -/
def natToStr (n : Nat) : Str := (Nat.repr n).toList

/-- Python `f"{i:03d}"`: zero-padded to width 3. -/
def pad3 (n : Nat) : Str :=
  let s := natToStr n
  if s.length < 3 then List.replicate (3 - s.length) '0' ++ s else s

/-- `PRDGenerator._generate_project_info` (`today` stands for
`datetime.datetime.now().strftime("%Y-%m-%d")`). -/
def projectInfoContent (today : Str) (info : ProjectInfo) : Str :=
  pyStrip (("\nProject Title: ").toList ++ info.title.getD (("Untitled Project").toList)
    ++ ("\nAuthor: ").toList ++ info.author.getD (("Unknown").toList)
    ++ ("\nDate: ").toList ++ info.date.getD today
    ++ ("\nVersion: ").toList ++ info.version.getD (("1.0").toList)
    ++ ("\nStatus: ").toList ++ info.status.getD (("Draft").toList)
    ++ ("\nTarget Release: ").toList ++ info.target_release.getD (("TBD").toList)
    ++ ("\n        ").toList)

/-- `PRDGenerator._generate_executive_summary`. -/
def execSummaryContent (stories : List UserStory) (info : ProjectInfo) : Str :=
  let total := stories.length
  let hi := (stories.filter (fun s => pyLower s.priority == ("high").toList)).length
  pyStrip (("\nThis Product Requirements Document outlines the requirements for ").toList
    ++ info.title.getD (("the project").toList)
    ++ (".\n\nThe product addresses key user needs through ").toList ++ natToStr total
    ++ (" user stories, with ").toList ++ natToStr hi
    ++ (" high-priority features identified. This document serves as the primary reference for development teams, stakeholders, and project managers throughout the product development lifecycle.\n\nKey objectives:\n- Deliver user-centered features based on identified user stories\n- Ensure clear requirements and acceptance criteria\n- Provide measurable success metrics\n- Establish development timeline and constraints\n        ").toList)

/-- `PRDGenerator._generate_product_overview`. -/
def productOverviewContent (info : ProjectInfo) : Str :=
  pyStrip (("\nProduct Vision: ").toList
    ++ info.vision.getD (("To be defined based on user requirements").toList)
    ++ ("\n\nTarget Users: Based on the user stories, the primary users include various personas who require the functionality described in the requirements.\n\nCore Value Proposition: The product will deliver value by addressing specific user needs as outlined in the user stories section.\n\nScope: This PRD covers the features and functionality derived from the provided user stories and their associated acceptance criteria.\n        ").toList)

/-- One story entry of `PRDGenerator._generate_user_stories_section`; the
`Story Points` line is emitted only when `story_points` is truthy in
Python (present and nonzero). -/
def usEntry (i : Nat) (s : UserStory) : Str :=
  ("US").toList ++ pad3 i ++ (": ").toList ++ s.title
    ++ ("\nDescription: ").toList ++ s.description
    ++ ("\nPriority: ").toList ++ s.priority ++ ['\n']
    ++ (match s.story_points with
        | some n => if n = 0 then [] else ("Story Points: ").toList ++ natToStr n ++ ['\n']
        | none => [])
    ++ ['\n']

/-- `PRDGenerator._generate_user_stories_section`: accumulator loop with
the 1-based counter of `enumerate(user_stories, 1)`. -/
def usSection (stories : List UserStory) : Str :=
  pyStrip ((stories.foldl (fun (p : Str × Nat) s => (p.1 ++ usEntry p.2 s, p.2 + 1))
    ((("The following user stories define the core requirements for this product:\n\n").toList), 1)).1)

/-- One entry of `PRDGenerator._generate_functional_requirements`. -/
def frEntry (i : Nat) (s : UserStory) : Str :=
  ("FR").toList ++ pad3 i ++ (": ").toList ++ s.title
    ++ ("\nThe system shall implement functionality to: ").toList ++ s.description
    ++ ("\nPriority Level: ").toList ++ s.priority ++ ("\n\n").toList

/-- `PRDGenerator._generate_functional_requirements`. -/
def frSection (stories : List UserStory) : Str :=
  pyStrip ((stories.foldl (fun (p : Str × Nat) s => (p.1 ++ frEntry p.2 s, p.2 + 1))
    ((("Based on the user stories, the following functional requirements have been identified:\n\n").toList), 1)).1)

/-- One criterion line `AC{i:03d}.{j}` (the inner index `j` is not
zero-padded). -/
def acLine (i j : Nat) (c : Str) : Str :=
  ("  AC").toList ++ pad3 i ++ ['.'] ++ natToStr j ++ (": ").toList ++ c ++ ['\n']

/-- One story entry of `PRDGenerator._generate_acceptance_criteria`, with
the inner `enumerate(story.acceptance_criteria, 1)` loop. -/
def acEntry (i : Nat) (s : UserStory) : Str :=
  ("US").toList ++ pad3 i ++ (" - ").toList ++ s.title ++ (":\n").toList
    ++ (s.acceptance_criteria.foldl
          (fun (p : Str × Nat) c => (p.1 ++ acLine i p.2 c, p.2 + 1)) ([], 1)).1
    ++ ['\n']

/-- `PRDGenerator._generate_acceptance_criteria`: stories with an empty
criteria list are skipped, but the counter still advances. -/
def acSection (stories : List UserStory) : Str :=
  pyStrip ((stories.foldl
    (fun (p : Str × Nat) s =>
      ((if s.acceptance_criteria.isEmpty then p.1 else p.1 ++ acEntry p.2 s), p.2 + 1))
    ((("Acceptance criteria for each user story:\n\n").toList), 1)).1)

/-- `PRDGenerator._generate_assumptions` (fixed text). -/
def assumptionsContent : Str :=
  pyStrip (("\nThe following assumptions are made for this product development:\n\n1. Technical infrastructure and development resources are available\n2. User stories represent validated user needs\n3. Acceptance criteria are complete and testable\n4. Dependencies with external systems are manageable\n5. Timeline estimates are based on standard development practices\n\nThese assumptions should be validated and updated as the project progresses.\n        ").toList)

/-- `PRDGenerator._generate_success_metrics` (fixed text). -/
def successMetricsContent : Str :=
  pyStrip (("\nSuccess will be measured using the following metrics:\n\n1. Feature Completion Rate: Percentage of user stories successfully implemented\n2. Acceptance Criteria Pass Rate: Percentage of acceptance criteria met\n3. User Satisfaction: To be measured through user feedback and testing\n4. Performance Metrics: Response time, uptime, and system reliability\n5. Adoption Metrics: User engagement and feature utilization\n\nSpecific targets and measurement methods should be defined during the planning phase.\n        ").toList)

/-- `PRDGenerator.generate_prd`: the eight `sections.append` calls, in
source order. -/
def generate_prd (today : Str) (stories : List UserStory) (info : ProjectInfo) :
    List PRDSection :=
  [⟨("Project Information").toList, projectInfoContent today info⟩,
   ⟨("Executive Summary").toList, execSummaryContent stories info⟩,
   ⟨("Product Overview").toList, productOverviewContent info⟩,
   ⟨("User Stories and Requirements").toList, usSection stories⟩,
   ⟨("Functional Requirements").toList, frSection stories⟩,
   ⟨("Acceptance Criteria").toList, acSection stories⟩,
   ⟨("Assumptions and Constraints").toList, assumptionsContent⟩,
   ⟨("Success Metrics").toList, successMetricsContent⟩]

/-! ### Block-and-padding presentations of an input (for the segmentation
claims) -/

/-- A well-formed story block: nonempty, with newline-free non-blank
lines. -/
def blockOk (b : List Str) : Prop :=
  b ≠ [] ∧ ∀ l ∈ b, '\n' ∉ l ∧ pyStrip l ≠ []

/-- Blank padding: newline-free whitespace-only lines. -/
def padOk (p : List Str) : Prop := ∀ l ∈ p, '\n' ∉ l ∧ pyStrip l = []

/-- A sequence of blocks, each followed by its blank padding; every padding
except possibly the one after the last block is nonempty (it separates
consecutive blocks). -/
def okItems : List (List Str × List Str) → Prop
  | [] => True
  | bp :: rest =>
    blockOk bp.1 ∧ padOk bp.2 ∧ (rest = [] ∨ (bp.2 ≠ [] ∧ okItems rest))

/-- The padded line sequence of the items. -/
def flatItems (items : List (List Str × List Str)) : List Str :=
  (items.map (fun bp => bp.1 ++ bp.2)).flatten

/-- The minimally padded line sequence: exactly one blank line between
consecutive blocks, none before, none after. -/
def minimalLines : List (List Str) → List Str
  | [] => []
  | [b] => b
  | b :: rest => b ++ [] :: minimalLines rest

/-- The minimal padding, in block-plus-padding form. -/
def mkMin : List (List Str) → List (List Str × List Str)
  | [] => []
  | [b] => [(b, [])]
  | b :: rest => (b, [[]]) :: mkMin rest

/-- Concrete leading padding instantiating the segmentation claim. -/
def c6pad : List Str := [(" ").toList]

/-- Concrete blocks and paddings instantiating the segmentation claim:
block `a` followed by an empty and a tab line, then block `b` with no
trailing padding. -/
def c6items : List (List Str × List Str) :=
  [([("a").toList], [[], ("\t").toList]), ([("b").toList], [])]

/-! ### Concrete instances used by the witness theorems -/

/-- The 101-character block used to instantiate C3. -/
def longBlock : Str := List.replicate 101 'x'

/-- The record extracted from `longBlock`. -/
def longRec : UserStory :=
  ⟨List.replicate 100 'x' ++ ("...").toList, List.replicate 101 'x',
   [], ("Medium").toList, none⟩

/-- The block and record instantiating the first-occurrence case of C8. -/
def prioBlock : Str := ("Priority: HIGH\nPrio: low").toList

/-- The record extracted from `prioBlock`. -/
def prioRec : UserStory :=
  ⟨("Priority: HIGH").toList, ("Priority: HIGH\nPrio: low").toList,
   [], ("High").toList, none⟩

/-- The labelless block and record instantiating the default case of C8. -/
def medBlock : Str := ("Hello").toList

/-- The record extracted from `medBlock`. -/
def medRec : UserStory :=
  ⟨("Hello").toList, ("Hello").toList, [], ("Medium").toList, none⟩

/-! ## C1 and C2: the concrete extraction examples of the spec -/

/-- C1 (counterexample): on the single-block gherkin input of the claim the
extracted title is not `"User Story: run suites"`: the lazy action
capture of the gherkin pattern starts right after the literal
`", I want "` and therefore keeps the word `to`. -/
theorem claim1_counterexample :
    (parse_user_stories (("As a tester, I want to run suites so that bugs are caught early.").toList)).map
        (fun r => r.title)
      ≠ [("User Story: run suites").toList] := by
  decide

/-- C1 (amended): the input of the claim yields exactly one record, with title
`"User Story: to run suites"` and description
`"As a tester, I want to run suites so that bugs are caught early"` (the
benefit capture stops before the trailing period, so the description
carries no trailing period). -/
theorem claim1_amended :
    parse_user_stories (("As a tester, I want to run suites so that bugs are caught early.").toList)
      = [⟨("User Story: to run suites").toList,
          ("As a tester, I want to run suites so that bugs are caught early").toList,
          [], ("Medium").toList, none⟩] := by
  decide

/-- C2 (counterexample): on the block of the claim the extracted criteria list is
not `["- A", "- B", "X"]`. -/
theorem claim2_counterexample :
    (parse_user_stories (("Acceptance Criteria:\n- A\n- B\nGiven X").toList)).map
        (fun r => r.acceptance_criteria)
      ≠ [[("- A").toList, ("- B").toList, ("X").toList]] := by
  decide

/-- C2 (amended): the labeled-block capture of the criteria pattern runs
under DOTALL to the end of the block, so the `Given X` line is kept as a
labeled criterion as well; the inline findall then appends its remainder
`X`.  The criteria list is `["- A", "- B", "Given X", "X"]`. -/
theorem claim2_amended :
    parse_user_stories (("Acceptance Criteria:\n- A\n- B\nGiven X").toList)
      = [⟨("Acceptance Criteria:").toList,
          ("Acceptance Criteria:\n- A\n- B\nGiven X").toList,
          [("- A").toList, ("- B").toList, ("Given X").toList, ("X").toList],
          ("Medium").toList, none⟩] := by
  decide

/-! ## Structural lemmas about the extractor -/

theorem foldl_append_filterMap (l : List Str) :
    ∀ acc : List UserStory,
      l.foldl
        (fun acc b =>
          match parseSingleStory b with
          | some s => acc ++ [s]
          | none => acc) acc
        = acc ++ l.filterMap parseSingleStory := by
  induction l with
  | nil => intro acc; simp
  | cons b bs ih =>
    intro acc
    simp only [List.foldl_cons, List.filterMap_cons]
    cases h : parseSingleStory b with
    | none => simp only [h]; rw [ih]
    | some s => simp only [h]; rw [ih]; simp

/-- The appending loop of `parse_user_stories` is a `filterMap` over the
blocks. -/
theorem parse_eq_filterMap (t : Str) :
    parse_user_stories t = (splitIntoStories t).filterMap parseSingleStory := by
  unfold parse_user_stories
  rw [foldl_append_filterMap]
  simp

/-- Field values of a successfully parsed record. -/
theorem parseSingleStory_fields {t : Str} {r : UserStory}
    (h : parseSingleStory t = some r) :
    r.title = (storyTitleDesc t).1 ∧ r.description = (storyTitleDesc t).2
    ∧ r.acceptance_criteria = storyCriteria t
    ∧ r.priority = storyPriority t ∧ r.story_points = storyPointsOf t
    ∧ r.title ≠ [] ∧ r.description ≠ [] := by
  unfold parseSingleStory at h
  split at h
  · exact absurd h (by simp)
  · rename_i hc
    injection h with h
    subst h
    simp only [Bool.or_eq_true, List.isEmpty_iff, not_or] at hc
    exact ⟨rfl, rfl, rfl, rfl, rfl, hc.1, hc.2⟩

/-- The two shapes of the title of a parsed record, by the gherkin branch. -/
theorem storyTitleDesc_title (t : Str) :
    (∃ g, gherkinSearch t = some g
        ∧ (storyTitleDesc t).1 = ("User Story: ").toList ++ g.2.1)
    ∨ (gherkinSearch t = none
        ∧ (storyTitleDesc t).1
            = (if 100 < (firstLine t).length
               then (firstLine t).take 100 ++ ("...").toList
               else firstLine t)) := by
  unfold storyTitleDesc
  cases hg : gherkinSearch t with
  | some g => exact Or.inl ⟨g, rfl, rfl⟩
  | none => exact Or.inr ⟨rfl, rfl⟩

/-! ## C7: order preservation -/

/-- C7: for every input, the extractor returns exactly the records of the
successfully parsed blocks, in block order — blocks whose parse yields
nothing are skipped without affecting the order of the rest
(`filterMap` over the block sequence). -/
theorem claim7_order_preservation (t : Str) :
    parse_user_stories t = (splitIntoStories t).filterMap parseSingleStory :=
  parse_eq_filterMap t

/-! ## C9: totality and nonemptiness -/

/-- C9: extraction is a total function (a Lean `def`) and every record it
returns has a nonempty title and a nonempty description; a block whose
computed title or description is empty produces no record. -/
theorem claim9_totality :
    (∀ t r, r ∈ parse_user_stories t → r.title ≠ [] ∧ r.description ≠ [])
    ∧ (∀ b, (storyTitleDesc b).1 = [] ∨ (storyTitleDesc b).2 = [] →
        parseSingleStory b = none) := by
  constructor
  · intro t r hm
    rw [parse_eq_filterMap] at hm
    obtain ⟨b, _, hb⟩ := List.mem_filterMap.mp hm
    exact (parseSingleStory_fields hb).2.2.2.2.2
  · intro b hb
    unfold parseSingleStory
    rcases hb with hb | hb <;> simp [hb]

/-- Witness for C9 at a concrete input. -/
theorem claim9_totality_witness :
    (⟨("Hi").toList, ("Hi").toList, [], ("Medium").toList, none⟩ : UserStory).title ≠ []
    ∧ (⟨("Hi").toList, ("Hi").toList, [], ("Medium").toList, none⟩ : UserStory).description ≠ [] :=
  claim9_totality.1 (("Hi").toList)
    ⟨("Hi").toList, ("Hi").toList, [], ("Medium").toList, none⟩ (by decide)

/-! ## C3: title length bound -/

/-- C3 (counterexample): on a single-line block of 101 characters the
extracted title is the first 100 characters plus `"..."` — 103
characters, so the claimed bound of 100 fails. -/
theorem claim3_counterexample :
    ¬ (∀ r ∈ parse_user_stories (List.replicate 101 'x'), r.title.length ≤ 100) := by
  decide

/-- C3 (amended): the title of every extracted record either has length at most
103 (non-gherkin branch: at most 100 characters of the first line plus
the 3-character ellipsis) or begins with `"User Story: "` (gherkin
branch, unbounded); and when the gherkin pattern does not match and the
first line exceeds 100 characters, the title is exactly the first 100
characters of that line followed by `"..."`. -/
theorem claim3_amended :
    (∀ t r, r ∈ parse_user_stories t →
        r.title.length ≤ 103 ∨ r.title.take 12 = ("User Story: ").toList)
    ∧ (∀ b r, parseSingleStory b = some r → gherkinSearch b = none →
        100 < (firstLine b).length →
        r.title = (firstLine b).take 100 ++ ("...").toList) := by
  constructor
  · intro t r hm
    rw [parse_eq_filterMap] at hm
    obtain ⟨b, _, hb⟩ := List.mem_filterMap.mp hm
    have ht := (parseSingleStory_fields hb).1
    rcases storyTitleDesc_title b with ⟨g, _, he⟩ | ⟨_, he⟩
    · right
      rw [ht, he]
      rw [show (12 : Nat) = (("User Story: ").toList).length from rfl]
      exact List.take_left _ _
    · left
      rw [ht, he]
      split
      · rename_i hlen
        rw [List.length_append, List.length_take]
        have := Nat.min_le_left 100 (firstLine b).length
        have h3 : (("...").toList).length = 3 := rfl
        omega
      · rename_i hlen
        omega
  · intro b r hb hg hlen
    have ht := (parseSingleStory_fields hb).1
    rcases storyTitleDesc_title b with ⟨g, hgs, _⟩ | ⟨_, he⟩
    · rw [hg] at hgs; cases hgs
    · rw [ht, he, if_pos hlen]

/-- Witness for C3 (amended) at the 101-character block. -/
theorem claim3_amended_witness :
    longRec.title.length ≤ 103
    ∧ longRec.title = (firstLine longBlock).take 100 ++ ("...").toList := by
  constructor
  · rcases claim3_amended.1 longBlock longRec (by decide) with h | h
    · exact h
    · exact absurd h (by decide)
  · exact claim3_amended.2 longBlock longRec (by decide) (by decide) (by decide)

/-! ## C8: priority extraction -/

theorem prioSearch_eq_of_leftmost {b : Str} {i : Nat} {w : Str}
    (hi : prioMatchAt (b.drop i) = some w)
    (hmin : ∀ j, j < i → prioMatchAt (b.drop j) = none) :
    prioSearch b = some w := by
  induction b generalizing i with
  | nil =>
    rw [List.drop_nil, show prioMatchAt [] = none from rfl] at hi
    cases hi
  | cons c t ih =>
    cases i with
    | zero =>
      rw [List.drop_zero] at hi
      unfold prioSearch
      rw [hi]
    | succ n =>
      have h0 := hmin 0 (Nat.succ_pos n)
      rw [List.drop_zero] at h0
      unfold prioSearch
      rw [h0]
      exact ih (by simpa using hi)
        (fun j hj => by simpa using hmin (j + 1) (Nat.succ_lt_succ hj))

theorem prioSearch_eq_none {b : Str} (h : ∀ j, prioMatchAt (b.drop j) = none) :
    prioSearch b = none := by
  induction b with
  | nil => rfl
  | cons c t ih =>
    have h0 := h 0
    rw [List.drop_zero] at h0
    unfold prioSearch
    rw [h0]
    exact ih (fun j => by simpa using h (j + 1))

theorem pointsSearch_eq_none {b : Str} (h : ∀ j, pointsMatchAt (b.drop j) = none) :
    pointsSearch b = none := by
  induction b with
  | nil => rfl
  | cons c t ih =>
    have h0 := h 0
    rw [List.drop_zero] at h0
    unfold pointsSearch
    rw [h0]
    exact ih (fun j => by simpa using h (j + 1))

/-- Reduce an unbounded no-match-at-any-offset hypothesis to the decidable
bounded one. -/
theorem matchAt_all_none {f : Str → Option Str} {b : Str} (hnil : f [] = none)
    (h : ∀ j, j < b.length → f (b.drop j) = none) : ∀ j, f (b.drop j) = none := by
  intro j
  by_cases hj : b.length ≤ j
  · rw [List.drop_eq_nil_of_le hj]; exact hnil
  · exact h j (by omega)

/-- C8: the priority of every parsed record is determined by the leftmost
occurrence of a priority label followed by a word — the captured word,
normalized with Python `capitalize()` semantics — and defaults to
`"Medium"` when no position of the block matches the priority pattern; a
block matching neither the priority nor the points pattern at any
position yields priority `"Medium"` and no story points.
`capitalize()` uppercases the first character and lowercases the rest,
so `"HIGH"` becomes `"High"`. -/
theorem claim8_priority :
    (∀ b r, parseSingleStory b = some r →
      ((∀ i w, prioMatchAt (b.drop i) = some w →
          (∀ j, j < i → prioMatchAt (b.drop j) = none) →
          r.priority = pyCapitalize w)
       ∧ ((∀ j, prioMatchAt (b.drop j) = none) → r.priority = ("Medium").toList)
       ∧ ((∀ j, prioMatchAt (b.drop j) = none) →
          (∀ j, pointsMatchAt (b.drop j) = none) →
          r.priority = ("Medium").toList ∧ r.story_points = none)))
    ∧ pyCapitalize (("HIGH").toList) = ("High").toList := by
  constructor
  · intro b r h
    have hp := (parseSingleStory_fields h).2.2.2.1
    have hq := (parseSingleStory_fields h).2.2.2.2.1
    refine ⟨?_, ?_, ?_⟩
    · intro i w hi hmin
      rw [hp]
      unfold storyPriority
      rw [prioSearch_eq_of_leftmost hi hmin]
    · intro hnone
      rw [hp]
      unfold storyPriority
      rw [prioSearch_eq_none hnone]
    · intro hnone hpts
      refine ⟨?_, ?_⟩
      · rw [hp]
        unfold storyPriority
        rw [prioSearch_eq_none hnone]
      · rw [hq]
        unfold storyPointsOf
        rw [pointsSearch_eq_none hpts]
        rfl
  · decide

/-- Witness for C8: the first of two priority labels wins (capitalized),
and a block with neither label gets the defaults. -/
theorem claim8_priority_witness :
    prioRec.priority = ("High").toList
    ∧ medRec.priority = ("Medium").toList ∧ medRec.story_points = none := by
  have h1 := (claim8_priority.1 prioBlock prioRec (by decide)).1 0
    (("HIGH").toList) (by decide) (fun j hj => absurd hj (by omega))
  have h2 := (claim8_priority.1 medBlock medRec (by decide)).2.2
    (matchAt_all_none rfl (by decide)) (matchAt_all_none rfl (by decide))
  refine ⟨?_, h2⟩
  rw [h1]
  exact claim8_priority.2

/-! ## C5 and C10: section numbering and rendering -/

/-- The counter-carrying accumulation loops of the section builders are
enumerations: the fragment appended for an element is indexed by its
position, counted from the initial counter value. -/
theorem foldl_entry_count {α : Type} (f : Nat → α → Str) :
    ∀ (l : List α) (a : Str) (i : Nat),
      (l.foldl (fun (p : Str × Nat) s => (p.1 ++ f p.2 s, p.2 + 1)) (a, i)).1
        = a ++ ((l.enumFrom i).map (fun q => f q.1 q.2)).flatten := by
  intro l
  induction l with
  | nil => intro a i; simp
  | cons s l ih =>
    intro a i
    simp only [List.foldl_cons, List.enumFrom_cons, List.map_cons, List.flatten_cons]
    rw [ih]
    simp [List.append_assoc]

theorem usSection_enum (stories : List UserStory) :
    usSection stories
      = pyStrip ((("The following user stories define the core requirements for this product:\n\n").toList)
          ++ ((stories.enumFrom 1).map (fun q => usEntry q.1 q.2)).flatten) := by
  unfold usSection
  rw [foldl_entry_count]

theorem frSection_enum (stories : List UserStory) :
    frSection stories
      = pyStrip ((("Based on the user stories, the following functional requirements have been identified:\n\n").toList)
          ++ ((stories.enumFrom 1).map (fun q => frEntry q.1 q.2)).flatten) := by
  unfold frSection
  rw [foldl_entry_count]

theorem acSection_enum (stories : List UserStory) :
    acSection stories
      = pyStrip ((("Acceptance criteria for each user story:\n\n").toList)
          ++ ((stories.enumFrom 1).map
                (fun q => if q.2.acceptance_criteria.isEmpty then [] else acEntry q.1 q.2)).flatten) := by
  unfold acSection
  have hfun :
      (fun (p : Str × Nat) s =>
        ((if s.acceptance_criteria.isEmpty then p.1 else p.1 ++ acEntry p.2 s), p.2 + 1))
      = (fun (p : Str × Nat) (s : UserStory) =>
        (p.1 ++ (if s.acceptance_criteria.isEmpty then [] else acEntry p.2 s), p.2 + 1)) := by
    funext p s
    split <;> simp
  rw [hfun]
  exact congrArg pyStrip
    (foldl_entry_count (fun i s => if s.acceptance_criteria.isEmpty then [] else acEntry i s)
      stories _ 1)

theorem acEntry_enum (i : Nat) (s : UserStory) :
    acEntry i s
      = ("US").toList ++ pad3 i ++ (" - ").toList ++ s.title ++ (":\n").toList
        ++ ((s.acceptance_criteria.enumFrom 1).map (fun q => acLine i q.1 q.2)).flatten
        ++ ['\n'] := by
  unfold acEntry
  rw [foldl_entry_count]
  simp

/-- C5: in all three story-indexed sections the number attached to a story
is its 1-based position in the input sequence (`enumFrom 1`), used by
`usEntry`/`frEntry`/`acEntry` as the `US`/`FR`/`AC` index; a story with an
empty criteria list contributes nothing to the Acceptance Criteria
section while the enumeration (and hence the numbering of later stories)
continues, and within a story the `AC{i:03d}.{j}` lines use the 1-based
position `j` in the own criteria list of that story. -/
theorem claim5_numbering (stories : List UserStory) :
    (usSection stories
      = pyStrip ((("The following user stories define the core requirements for this product:\n\n").toList)
          ++ ((stories.enumFrom 1).map (fun q => usEntry q.1 q.2)).flatten))
    ∧ (frSection stories
      = pyStrip ((("Based on the user stories, the following functional requirements have been identified:\n\n").toList)
          ++ ((stories.enumFrom 1).map (fun q => frEntry q.1 q.2)).flatten))
    ∧ (acSection stories
      = pyStrip ((("Acceptance criteria for each user story:\n\n").toList)
          ++ ((stories.enumFrom 1).map
                (fun q => if q.2.acceptance_criteria.isEmpty then [] else acEntry q.1 q.2)).flatten))
    ∧ (∀ i s, acEntry i s
      = ("US").toList ++ pad3 i ++ (" - ").toList ++ s.title ++ (":\n").toList
        ++ ((s.acceptance_criteria.enumFrom 1).map (fun q => acLine i q.1 q.2)).flatten
        ++ ['\n']) :=
  ⟨usSection_enum stories, frSection_enum stories, acSection_enum stories, acEntry_enum⟩

/-- A zero story-points value renders exactly like an absent one (Python
truthiness of `0`). -/
theorem usEntry_sp_zero (i : Nat) (s : UserStory) :
    usEntry i { s with story_points := some 0 }
      = usEntry i { s with story_points := none } := by
  unfold usEntry
  simp

/-- C10: a record whose `story_points` is `0` is rendered in the
User Stories and Requirements section without a `Story Points:` line,
exactly as if the field were unset, wherever the record appears in the
stories sequence; and `story_points = 0` is reachable from the block
`"SP: 0"`. -/
theorem claim10_zero_points :
    (∀ (i : Nat) (s : UserStory), usEntry i { s with story_points := some 0 }
        = usEntry i { s with story_points := none })
    ∧ (∀ (pre post : List UserStory) (s : UserStory),
        usSection (pre ++ { s with story_points := some 0 } :: post)
          = usSection (pre ++ { s with story_points := none } :: post))
    ∧ (parse_user_stories (("SP: 0").toList)).map (fun r => r.story_points) = [some 0] := by
    refine ⟨usEntry_sp_zero, ?_, by decide⟩
    intro pre post s
    rw [usSection_enum, usSection_enum]
    rw [List.enumFrom_append, List.enumFrom_append]
    simp only [List.enumFrom_cons, List.map_append, List.map_cons,
      List.flatten_append, List.flatten_cons]
    rw [usEntry_sp_zero]

/-! ## C4: the assembled document -/

theorem lstrip_append_of_ne (a b : Str) (h : lstrip a ≠ []) :
    lstrip (a ++ b) = lstrip a ++ b := by
  unfold lstrip at *
  rw [List.dropWhile_append]
  simp [List.isEmpty_iff, h]

theorem rstrip_append_of_ne (a b : Str) (h : rstrip b ≠ []) :
    rstrip (a ++ b) = a ++ rstrip b := by
  unfold rstrip at *
  have hb : b.reverse.dropWhile pyWS ≠ [] := by
    intro hc
    apply h
    rw [hc]
    rfl
  rw [List.reverse_append, List.dropWhile_append]
  simp [List.isEmpty_iff, hb, List.reverse_append]

theorem pyStrip_sandwich (a x b : Str) (ha : lstrip a ≠ []) (hb : rstrip b ≠ []) :
    pyStrip (a ++ (x ++ b)) = lstrip a ++ (x ++ rstrip b) := by
  unfold pyStrip
  rw [lstrip_append_of_ne _ _ ha]
  have h1 : rstrip (x ++ b) = x ++ rstrip b := rstrip_append_of_ne _ _ hb
  have h2 : rstrip (x ++ b) ≠ [] := by
    rw [h1]
    intro hc
    exact hb (List.append_eq_nil.mp hc).2
  rw [rstrip_append_of_ne _ _ h2, h1]

/-- With the empty metadata mapping, the Project Information block shows
all the fixed defaults around the current date. -/
theorem projectInfoContent_empty (today : Str) :
    projectInfoContent today ProjectInfo.empty
      = ("Project Title: Untitled Project\nAuthor: Unknown\nDate: ").toList
        ++ (today ++ ("\nVersion: 1.0\nStatus: Draft\nTarget Release: TBD").toList) := by
  unfold projectInfoContent ProjectInfo.empty
  simp only [Option.getD_none]
  rw [show ((((("\nProject Title: ").toList ++ ("Untitled Project").toList)
        ++ ("\nAuthor: ").toList) ++ ("Unknown").toList) ++ ("\nDate: ").toList)
      = ("\nProject Title: Untitled Project\nAuthor: Unknown\nDate: ").toList from by decide]
  simp only [List.append_assoc]
  rw [show (("\nVersion: ").toList ++ (("1.0").toList ++ (("\nStatus: ").toList
        ++ (("Draft").toList ++ (("\nTarget Release: ").toList
          ++ (("TBD").toList ++ ("\n        ").toList))))))
      = ("\nVersion: 1.0\nStatus: Draft\nTarget Release: TBD\n        ").toList from by decide]
  rw [pyStrip_sandwich _ _ _ (by decide) (by decide)]
  rw [show lstrip (("\nProject Title: Untitled Project\nAuthor: Unknown\nDate: ").toList)
      = ("Project Title: Untitled Project\nAuthor: Unknown\nDate: ").toList from by decide]
  rw [show rstrip (("\nVersion: 1.0\nStatus: Draft\nTarget Release: TBD\n        ").toList)
      = ("\nVersion: 1.0\nStatus: Draft\nTarget Release: TBD").toList from by decide]

/-- C4: for every stories sequence and metadata mapping the generator emits
exactly the eight sections, in the fixed order; with the empty story list
and the empty mapping the Project Information section shows the default
values `Untitled Project`, `Unknown`, the current date, `1.0`, `Draft`,
`TBD`. -/
theorem claim4_default_generate :
    (∀ (today : Str) (stories : List UserStory) (info : ProjectInfo),
        (generate_prd today stories info).map PRDSection.title
          = [("Project Information").toList, ("Executive Summary").toList,
             ("Product Overview").toList, ("User Stories and Requirements").toList,
             ("Functional Requirements").toList, ("Acceptance Criteria").toList,
             ("Assumptions and Constraints").toList, ("Success Metrics").toList])
    ∧ (∀ (today : Str) (stories : List UserStory) (info : ProjectInfo),
        (generate_prd today stories info).length = 8)
    ∧ (∀ today : Str,
        (generate_prd today [] ProjectInfo.empty).head?
          = some ⟨("Project Information").toList,
              ("Project Title: Untitled Project\nAuthor: Unknown\nDate: ").toList
                ++ (today ++ ("\nVersion: 1.0\nStatus: Draft\nTarget Release: TBD").toList)⟩) := by
  refine ⟨fun today stories info => rfl, fun today stories info => rfl, fun today => ?_⟩
  have hh : (generate_prd today [] ProjectInfo.empty).head?
      = some ⟨("Project Information").toList,
              projectInfoContent today ProjectInfo.empty⟩ := rfl
  rw [hh, projectInfoContent_empty]

/-! ## C6: segmentation is insensitive to blank-line padding -/

theorem splitNl_ne_nil (s : Str) : splitNl s ≠ [] := by
  cases s with
  | nil => simp [splitNl]
  | cons c t =>
    simp only [splitNl]
    split
    · simp
    · split <;> simp

theorem splitNl_of_no_newline {l : Str} (h : '\n' ∉ l) : splitNl l = [l] := by
  induction l with
  | nil => rfl
  | cons c t ih =>
    have hc : ¬ c = '\n' := fun hcc => h (hcc ▸ List.mem_cons_self c t)
    have ht := ih (fun hm => h (List.mem_cons_of_mem c hm))
    simp only [splitNl, if_neg hc, ht]

theorem splitNl_append_newline_cons {a : Str} (t : Str) (h : '\n' ∉ a) :
    splitNl (a ++ '\n' :: t) = a :: splitNl t := by
  induction a with
  | nil => simp [splitNl]
  | cons c a' ih =>
    have hc : ¬ c = '\n' := fun hcc => h (hcc ▸ List.mem_cons_self c a')
    have ha' := ih (fun hm => h (List.mem_cons_of_mem c hm))
    simp [splitNl, hc, ha', List.append_eq]

/-- `split('\n')` inverts `'\n'.join` on newline-free lines. -/
theorem splitNl_nlJoin : ∀ (ls : List Str), ls ≠ [] → (∀ l ∈ ls, '\n' ∉ l) →
    splitNl (nlJoin ls) = ls := by
  intro ls
  induction ls with
  | nil => intro h; exact absurd rfl h
  | cons l ls ih =>
    intro _ hno
    cases ls with
    | nil => exact splitNl_of_no_newline (hno l (List.mem_cons_self l []))
    | cons l2 ls' =>
      have h1 : nlJoin (l :: l2 :: ls') = l ++ '\n' :: nlJoin (l2 :: ls') := rfl
      rw [h1, splitNl_append_newline_cons _ (hno l (List.mem_cons_self _ _)),
          ih (by simp) (fun x hx => hno x (List.mem_cons_of_mem l hx))]

theorem splitNl_append_newline (l : Str) : splitNl (l ++ ['\n']) = splitNl l ++ [[]] := by
  induction l with
  | nil => rfl
  | cons a l' ih =>
    by_cases ha : a = '\n'
    · subst ha
      simp [splitNl, ih, List.append_eq]
    · obtain ⟨h1, t1, ht⟩ : ∃ h1 t1, splitNl l' = h1 :: t1 := by
        cases hh : splitNl l' with
        | nil => exact absurd hh (splitNl_ne_nil l')
        | cons x y => exact ⟨x, y, rfl⟩
      simp [splitNl, ha, ih, ht, List.append_eq]

/-- Appending a non-newline character extends the last line of the split. -/
theorem splitNl_append_char {c : Char} (hc : c ≠ '\n') :
    ∀ l : Str, ∃ xs x, splitNl l = xs ++ [x] ∧ splitNl (l ++ [c]) = xs ++ [x ++ [c]] := by
  intro l
  induction l with
  | nil => exact ⟨[], [], rfl, by simp [splitNl, hc]⟩
  | cons a l' ih =>
    obtain ⟨xs, x, h1, h2⟩ := ih
    by_cases ha : a = '\n'
    · subst ha
      refine ⟨[] :: xs, x, ?_, ?_⟩
      · simp [splitNl, h1]
      · simp [splitNl, h2, List.append_eq]
    · cases xs with
      | nil =>
        refine ⟨[], a :: x, ?_, ?_⟩
        · simp [splitNl, ha, h1]
        · simp [splitNl, ha, h2, List.append_eq]
      | cons y ys =>
        refine ⟨(a :: y) :: ys, x, ?_, ?_⟩
        · simp [splitNl, ha, h1]
        · simp [splitNl, ha, h2, List.append_eq]

theorem lstrip_cons_ws {c : Char} (hc : pyWS c) (l : Str) : lstrip (c :: l) = lstrip l := by
  unfold lstrip
  rw [List.dropWhile_cons_of_pos hc]

theorem pyStrip_cons_ws {c : Char} (hc : pyWS c) (l : Str) : pyStrip (c :: l) = pyStrip l := by
  unfold pyStrip
  rw [lstrip_cons_ws hc]

theorem rstrip_concat_ws {c : Char} (hc : pyWS c) (l : Str) : rstrip (l ++ [c]) = rstrip l := by
  unfold rstrip
  rw [List.reverse_append]
  simp only [List.reverse_cons, List.reverse_nil, List.nil_append, List.singleton_append]
  rw [List.dropWhile_cons_of_pos hc]

theorem rstrip_concat_not_ws {c : Char} (hc : ¬ pyWS c) (l : Str) :
    rstrip (l ++ [c]) = l ++ [c] := by
  unfold rstrip
  rw [List.reverse_append]
  simp only [List.reverse_cons, List.reverse_nil, List.nil_append, List.singleton_append]
  rw [List.dropWhile_cons_of_neg (by simpa using hc)]
  simp

theorem pyStrip_concat_ws {c : Char} (hc : pyWS c) (l : Str) :
    pyStrip (l ++ [c]) = pyStrip l := by
  unfold pyStrip lstrip
  rw [List.dropWhile_append]
  split
  · rename_i hemp
    rw [List.isEmpty_iff] at hemp
    rw [hemp]
    simp [List.dropWhile_cons, hc]
  · exact rstrip_concat_ws hc _

/-- The block loop only depends on the stripped lines. -/
theorem splitLoop_congr : ∀ (xs ys : List Str), xs.map pyStrip = ys.map pyStrip →
    ∀ st cur, splitLoop st cur xs = splitLoop st cur ys := by
  intro xs
  induction xs with
  | nil =>
    intro ys h st cur
    cases ys with
    | nil => rfl
    | cons y ys' => simp at h
  | cons x xs' ih =>
    intro ys h st cur
    cases ys with
    | nil => simp at h
    | cons y ys' =>
      simp only [List.map_cons, List.cons.injEq] at h
      obtain ⟨hxy, hrest⟩ := h
      simp only [splitLoop]
      rw [hxy]
      split
      · split
        · exact ih _ hrest _ _
        · exact ih _ hrest _ _
      · exact ih _ hrest _ _

/-- A final blank line never changes the block list. -/
theorem splitLoop_trailing_blank {e : Str} (he : pyStrip e = []) :
    ∀ (xs : List Str) (st cur : List Str),
      splitLoop st cur (xs ++ [e]) = splitLoop st cur xs := by
  intro xs
  induction xs with
  | nil =>
    intro st cur
    cases cur with
    | nil => simp [splitLoop, he]
    | cons a b => simp [splitLoop, he]
  | cons l xs' ih =>
    intro st cur
    simp only [List.cons_append, splitLoop]
    split
    · split
      · exact ih _ _
      · exact ih _ _
    · exact ih _ _

theorem splitLoop_cons_blank {e : Str} (he : pyStrip e = []) (st xs : List Str) :
    splitLoop st [] (e :: xs) = splitLoop st [] xs := by
  simp [splitLoop, he]

/-- Stripping the whole text first does not change the produced blocks
(leading whitespace). -/
theorem splitLoop_splitNl_lstrip : ∀ t : Str,
    splitLoop [] [] (splitNl (lstrip t)) = splitLoop [] [] (splitNl t) := by
  intro t
  induction t with
  | nil => rfl
  | cons c t' ih =>
    by_cases hws : pyWS c
    · by_cases hnl : c = '\n'
      · subst hnl
        rw [lstrip_cons_ws hws, ih]
        have h1 : splitNl ('\n' :: t') = [] :: splitNl t' := by simp [splitNl]
        rw [h1, splitLoop_cons_blank (show pyStrip ([] : Str) = [] from rfl) _ _]
      · rw [lstrip_cons_ws hws, ih]
        obtain ⟨h, tl, hh⟩ : ∃ h tl, splitNl t' = h :: tl := by
          cases hx : splitNl t' with
          | nil => exact absurd hx (splitNl_ne_nil t')
          | cons x y => exact ⟨x, y, rfl⟩
        have h2 : splitNl (c :: t') = (c :: h) :: tl := by simp [splitNl, hnl, hh]
        rw [hh, h2]
        exact splitLoop_congr (h :: tl) ((c :: h) :: tl)
          (by simp [pyStrip_cons_ws hws]) [] []
    · have hl : lstrip (c :: t') = c :: t' := by
        unfold lstrip
        rw [List.dropWhile_cons_of_neg (by simpa using hws)]
      rw [hl]

/-- Stripping the whole text first does not change the produced blocks
(trailing whitespace). -/
theorem splitLoop_splitNl_rstrip : ∀ t : Str,
    splitLoop [] [] (splitNl (rstrip t)) = splitLoop [] [] (splitNl t) := by
  intro t
  induction t using List.reverseRecOn with
  | nil => rfl
  | append_singleton l c ih =>
    by_cases hws : pyWS c
    · rw [rstrip_concat_ws hws, ih]
      by_cases hnl : c = '\n'
      · subst hnl
        rw [splitNl_append_newline, splitLoop_trailing_blank (show pyStrip ([] : Str) = [] from rfl) _ _ _]
      · obtain ⟨xs, x, h1, h2⟩ := splitNl_append_char hnl l
        rw [h1, h2]
        refine splitLoop_congr _ _ ?_ [] []
        simp [pyStrip_concat_ws hws]
    · rw [rstrip_concat_not_ws hws]

/-- The initial `text.strip()` of `_split_into_stories` is irrelevant to
the block list. -/
theorem splitIntoStories_eq_splitLoop (t : Str) :
    splitIntoStories t = splitLoop [] [] (splitNl t) := by
  unfold splitIntoStories pyStrip
  rw [splitLoop_splitNl_rstrip (lstrip t), splitLoop_splitNl_lstrip t]

theorem splitIntoStories_nlJoin (L : List Str) (hL : ∀ l ∈ L, '\n' ∉ l) :
    splitIntoStories (nlJoin L) = splitLoop [] [] L := by
  cases L with
  | nil => rfl
  | cons l ls =>
    rw [splitIntoStories_eq_splitLoop, splitNl_nlJoin _ (by simp) hL]

/-- Leading blank lines are absorbed while no block is open. -/
theorem splitLoop_absorb : ∀ (p : List Str), (∀ l ∈ p, pyStrip l = []) →
    ∀ (st : List Str) (xs : List Str), splitLoop st [] (p ++ xs) = splitLoop st [] xs := by
  intro p
  induction p with
  | nil => intro _ st xs; rfl
  | cons e p' ih =>
    intro hp st xs
    rw [List.cons_append, splitLoop_cons_blank (hp e (List.mem_cons_self e p'))]
    exact ih (fun l hl => hp l (List.mem_cons_of_mem e hl)) st xs

/-- Non-blank lines accumulate, stripped, into the open block. -/
theorem splitLoop_consume : ∀ (b : List Str), (∀ l ∈ b, pyStrip l ≠ []) →
    ∀ (st cur xs : List Str),
      splitLoop st cur (b ++ xs) = splitLoop st (cur ++ b.map pyStrip) xs := by
  intro b
  induction b with
  | nil => intro _ st cur xs; simp
  | cons l b' ih =>
    intro hb st cur xs
    rw [List.cons_append]
    have hl : ¬ (pyStrip l).isEmpty = true := by
      simp [List.isEmpty_iff, hb l (List.mem_cons_self l b')]
    simp only [splitLoop, if_neg hl]
    rw [ih (fun x hx => hb x (List.mem_cons_of_mem l hx)) st (cur ++ [pyStrip l]) xs]
    simp

/-- A blank line flushes the open block. -/
theorem splitLoop_flush {e : Str} {cur : List Str} (he : pyStrip e = [])
    (hc : cur ≠ []) (st xs : List Str) :
    splitLoop st cur (e :: xs) = splitLoop (st ++ [nlJoin cur]) [] xs := by
  have hcc : ¬ cur.isEmpty = true := by simp [List.isEmpty_iff, hc]
  simp [splitLoop, he, hcc]

/-- All-blank remaining lines just flush the open block. -/
theorem splitLoop_flush_tail : ∀ (p : List Str), (∀ l ∈ p, pyStrip l = []) →
    ∀ (st cur : List Str), cur ≠ [] → splitLoop st cur p = st ++ [nlJoin cur] := by
  intro p hp st cur hcur
  cases p with
  | nil =>
    have hcc : ¬ cur.isEmpty = true := by simp [List.isEmpty_iff, hcur]
    simp [splitLoop, hcc]
  | cons e p' =>
    rw [splitLoop_flush (hp e (List.mem_cons_self e p')) hcur]
    have := splitLoop_absorb p' (fun l hl => hp l (List.mem_cons_of_mem e hl))
      (st ++ [nlJoin cur]) []
    rw [List.append_nil] at this
    rw [this]
    rfl

/-- Processing block-plus-padding items appends exactly one joined,
stripped block per item. -/
theorem splitLoop_core : ∀ (items : List (List Str × List Str)) (st : List Str),
    okItems items →
    splitLoop st [] (flatItems items)
      = st ++ items.map (fun bp => nlJoin (bp.1.map pyStrip)) := by
  intro items
  induction items with
  | nil => intro st _; simp [flatItems, splitLoop]
  | cons bp rest ih =>
    intro st hok
    obtain ⟨hb, hp, hlast⟩ : blockOk bp.1 ∧ padOk bp.2
        ∧ (rest = [] ∨ (bp.2 ≠ [] ∧ okItems rest)) := hok
    have hflat : flatItems (bp :: rest) = bp.1 ++ (bp.2 ++ flatItems rest) := by
      simp [flatItems]
    rw [hflat,
        splitLoop_consume bp.1 (fun l hl => (hb.2 l hl).2) st [] (bp.2 ++ flatItems rest),
        List.nil_append]
    have hcur : bp.1.map pyStrip ≠ [] := by
      intro hc
      exact hb.1 (List.map_eq_nil_iff.mp hc)
    rcases hlast with hrnil | ⟨hpne, hrest⟩
    · subst hrnil
      have hfr : flatItems ([] : List (List Str × List Str)) = [] := rfl
      rw [hfr, List.append_nil,
          splitLoop_flush_tail bp.2 (fun l hl => (hp l hl).2) st _ hcur]
      simp
    · obtain ⟨e, p', hep⟩ : ∃ e p', bp.2 = e :: p' := by
        cases hpp : bp.2 with
        | nil => exact absurd hpp hpne
        | cons a b => exact ⟨a, b, rfl⟩
      rw [hep, List.cons_append,
          splitLoop_flush ((hp e (hep ▸ List.mem_cons_self e p')).2) hcur,
          splitLoop_absorb p' (fun l hl => (hp l (hep ▸ List.mem_cons_of_mem e hl)).2) _ _,
          ih _ hrest]
      simp

theorem mkMin_fst : ∀ blocks : List (List Str), (mkMin blocks).map Prod.fst = blocks := by
  intro blocks
  induction blocks with
  | nil => rfl
  | cons b rest ih =>
    cases rest with
    | nil => rfl
    | cons r rs => simp only [mkMin, List.map_cons]; rw [ih]

theorem mkMin_flat : ∀ blocks : List (List Str),
    flatItems (mkMin blocks) = minimalLines blocks := by
  intro blocks
  induction blocks with
  | nil => rfl
  | cons b rest ih =>
    cases rest with
    | nil => simp [mkMin, flatItems, minimalLines]
    | cons r rs =>
      simp only [mkMin, minimalLines, flatItems, List.map_cons, List.flatten_cons]
      rw [show (List.map (fun bp => bp.1 ++ bp.2) (mkMin (r :: rs))).flatten
          = flatItems (mkMin (r :: rs)) from rfl, ih]
      simp

theorem mkMin_ok : ∀ blocks : List (List Str), (∀ b ∈ blocks, blockOk b) →
    okItems (mkMin blocks) := by
  intro blocks
  induction blocks with
  | nil => intro _; trivial
  | cons b rest ih =>
    intro hall
    cases rest with
    | nil =>
      exact ⟨hall b (List.mem_cons_self b []), fun l hl => absurd hl (List.not_mem_nil l),
             Or.inl rfl⟩
    | cons r rs =>
      refine ⟨hall b (List.mem_cons_self b _), ?_, Or.inr ⟨by simp, ?_⟩⟩
      · intro l hl
        rw [List.mem_singleton] at hl
        subst hl
        exact ⟨List.not_mem_nil '\n', rfl⟩
      · exact ih (fun x hx => hall x (List.mem_cons_of_mem b hx))

theorem okItems_blockOk : ∀ items : List (List Str × List Str), okItems items →
    ∀ bp ∈ items, blockOk bp.1 := by
  intro items
  induction items with
  | nil => intro _ bp h; exact absurd h (List.not_mem_nil bp)
  | cons q rest ih =>
    intro hok bp hm
    obtain ⟨hb, _, hlast⟩ := hok
    rcases List.mem_cons.mp hm with hq | hr
    · subst hq; exact hb
    · rcases hlast with hrnil | ⟨_, hrest⟩
      · subst hrnil; exact absurd hr (List.not_mem_nil bp)
      · exact ih hrest bp hr

theorem flatItems_no_newline : ∀ items : List (List Str × List Str), okItems items →
    ∀ l ∈ flatItems items, '\n' ∉ l := by
  intro items
  induction items with
  | nil => intro _ l h; simp [flatItems] at h
  | cons bp rest ih =>
    intro hok l hm
    obtain ⟨hb, hp, hlast⟩ := hok
    have hm2 : l ∈ bp.1 ++ bp.2 ∨ l ∈ flatItems rest := by
      have : flatItems (bp :: rest) = (bp.1 ++ bp.2) ++ flatItems rest := by
        simp [flatItems]
      rw [this] at hm
      exact List.mem_append.mp hm
    rcases hm2 with hm2 | hm2
    · rcases List.mem_append.mp hm2 with h1 | h2
      · exact (hb.2 l h1).1
      · exact (hp l h2).1
    · rcases hlast with hrnil | ⟨_, hrest⟩
      · subst hrnil; simp [flatItems] at hm2
      · exact ih hrest l hm2

theorem minimalLines_no_newline : ∀ blocks : List (List Str),
    (∀ b ∈ blocks, ∀ l ∈ b, '\n' ∉ l) → ∀ l ∈ minimalLines blocks, '\n' ∉ l := by
  intro blocks
  induction blocks with
  | nil => intro _ l h; simp [minimalLines] at h
  | cons b rest ih =>
    intro hall l hm
    cases rest with
    | nil => exact hall b (List.mem_cons_self b []) l hm
    | cons r rs =>
      simp only [minimalLines] at hm
      rcases List.mem_append.mp hm with h1 | h2
      · exact hall b (List.mem_cons_self b _) l h1
      · rcases List.mem_cons.mp h2 with hblank | h3
        · subst hblank; exact List.not_mem_nil '\n'
        · exact ih (fun x hx => hall x (List.mem_cons_of_mem b hx)) l h3

/-- C6: the extracted record sequence is unchanged by blank-line padding:
for blocks of non-blank newline-free lines, any amount of leading padding
and any nonempty blank padding between blocks (with arbitrary, possibly
empty, padding after the last block) yields the same records as the
minimally padded text with exactly one blank line between consecutive
blocks; repeated blank lines produce no empty block, and the final block
is included even with no trailing blank line. -/
theorem claim6_blank_padding (p0 : List Str) (items : List (List Str × List Str))
    (hp0 : padOk p0) (hitems : okItems items) :
    parse_user_stories (nlJoin (p0 ++ flatItems items))
      = parse_user_stories (nlJoin (minimalLines (items.map Prod.fst))) := by
  have hmapeq : ∀ its : List (List Str × List Str),
      its.map (fun bp => nlJoin (bp.1.map pyStrip))
        = (its.map Prod.fst).map (fun b => nlJoin (b.map pyStrip)) := by
    intro its
    rw [List.map_map]
    rfl
  have hblocks : ∀ b ∈ items.map Prod.fst, blockOk b := by
    intro b hb
    obtain ⟨bp, hbp, hfst⟩ := List.mem_map.mp hb
    exact hfst ▸ okItems_blockOk items hitems bp hbp
  have hsplit : splitIntoStories (nlJoin (p0 ++ flatItems items))
      = splitIntoStories (nlJoin (minimalLines (items.map Prod.fst))) := by
    rw [splitIntoStories_nlJoin _ (by
          intro l hl
          rcases List.mem_append.mp hl with h1 | h2
          · exact (hp0 l h1).1
          · exact flatItems_no_newline items hitems l h2),
        splitIntoStories_nlJoin _
          (minimalLines_no_newline _ (fun b hb l hl => (hblocks b hb).2 l hl |>.1)),
        splitLoop_absorb p0 (fun l hl => (hp0 l hl).2) [] _,
        splitLoop_core items [] hitems,
        ← mkMin_flat,
        splitLoop_core _ [] (mkMin_ok _ hblocks),
        List.nil_append, List.nil_append,
        hmapeq items, hmapeq (mkMin (items.map Prod.fst)), mkMin_fst]
  unfold parse_user_stories
  rw [hsplit]

/-- Witness for C6 at a concrete padded input. -/
theorem claim6_blank_padding_witness :
    parse_user_stories (nlJoin (c6pad ++ flatItems c6items))
      = parse_user_stories (nlJoin (minimalLines (c6items.map Prod.fst))) :=
  claim6_blank_padding c6pad c6items
    (by unfold padOk c6pad; decide)
    (⟨⟨by decide, by decide⟩,
      by unfold padOk; decide,
      Or.inr ⟨by decide,
        ⟨by decide, by decide⟩,
        by unfold padOk; decide,
        Or.inl rfl⟩⟩)

end PRD
